import Mathlib

/-!
Shallow embedding of the launcher list model (`src/launchermodel.cpp`) of
liquid-launcher.  The store `m_items` is modelled as a `List LauncherItem`;
the desktop-entry parser (`DesktopProperties`, an external collaborator) is
modelled as a function from file names to the record of fields the model
reads; Qt string operations used by the code (`toUpper`, `split`,
case-insensitive `contains`, `QString::operator<`, `simplified`) are
re-implemented character-by-character on `List Char`.
-/

namespace LiquidLauncher

/-- A store item, as built by `LauncherModel::addApp` (fields of
`LauncherItem` that the model reads or writes). -/
structure LauncherItem where
  id : String
  name : String
  genericName : String
  comment : String
  iconName : String
  args : List String
deriving DecidableEq, Repr

/-- The fields of one desktop-entry file as consumed by `addApp` through
`DesktopProperties`.  `terminal` is an `Option` because the code checks
`desktop.contains("Terminal")` before reading it; `onlyShowIn` is an
`Option` because the code checks `desktop.contains("OnlyShowIn")`.
The remaining fields model `value(...)` directly, with the `QVariant`
defaults for an absent key (`toBool` gives `false`, `toString` gives `""`). -/
structure DesktopEntry where
  terminal : Option Bool := none
  onlyShowIn : Option String := none
  noDisplay : Bool := false
  hidden : Bool := false
  localeName : String := ""
  name : String := ""
  comment : String := ""
  icon : String := ""
  exec : String := ""
deriving DecidableEq, Repr

/-- Character list of a string with every character upper-cased
(model of `QString::toUpper` / `QByteArray::toUpper`). -/
def upperChars (s : String) : List Char :=
  s.data.map Char.toUpper

/-- Split a character list at every occurrence of `sep`, keeping empty
parts (model of Qt's `split` with its default `KeepEmptyParts` on a
one-character separator; in particular the empty list yields `[[]]`). -/
def splitOnCharList (sep : Char) : List Char → List (List Char)
  | [] => [[]]
  | c :: rest =>
    if c = sep then
      [] :: splitOnCharList sep rest
    else
      match splitOnCharList sep rest with
      | [] => [[c]]
      | w :: ws => (c :: w) :: ws

/-- String-level wrapper of `splitOnCharList`. -/
def splitString (sep : Char) (s : String) : List String :=
  (splitOnCharList sep s.data).map String.mk

/-- Whether `pat` occurs at the head of `cs`. -/
def leadsWith : List Char → List Char → Bool
  | [], _ => true
  | _ :: _, [] => false
  | a :: pat, b :: cs => a == b && leadsWith pat cs

/-- Whether `pat` occurs contiguously anywhere in `cs`. -/
def occursIn (pat : List Char) : List Char → Bool
  | [] => pat.isEmpty
  | c :: rest => leadsWith pat (c :: rest) || occursIn pat rest

/-- Model of `QString::contains(key, Qt::CaseInsensitive)`: the key occurs
in the haystack after upper-casing both sides. -/
def ciContains (hay key : String) : Bool :=
  occursIn (upperChars key) (upperChars hay)

/-- Model of `QString::operator<`: lexicographic comparison of the
character sequences. -/
def nameLtB : List Char → List Char → Bool
  | _, [] => false
  | [], _ :: _ => true
  | a :: as, b :: bs => if a = b then nameLtB as bs else decide (a < b)

/-- Model of `detectDesktopEnvironment` (launchermodel.cpp:36-44): the
`XDG_CURRENT_DESKTOP` value upper-cased, or `"UNKNOWN"` when it is empty. -/
def detectDesktopEnvironment (xdgCurrentDesktop : String) : String :=
  if xdgCurrentDesktop = "" then "UNKNOWN" else String.mk (upperChars xdgCurrentDesktop)

/-- Model of `appExec.remove(QRegularExpression("%."))`: delete every
`%` together with the character following it (a `.` does not match a
newline, in which case the `%` is kept), scanning left to right. -/
def removeFieldCodes : List Char → List Char
  | [] => []
  | '%' :: c :: rest =>
    if c = '\n' then '%' :: removeFieldCodes (c :: rest) else removeFieldCodes rest
  | c :: rest => c :: removeFieldCodes rest

/-- Model of `appExec.remove(QRegularExpression("^\""))`: drop one leading
double quote. -/
def stripLeadingQuote : List Char → List Char
  | '"' :: rest => rest
  | cs => cs

/-- Maximal whitespace-free runs of a character list, in order
(`acc` holds the current run reversed). -/
def collectWords : List Char → List Char → List (List Char)
  | [], acc => if acc.isEmpty then [] else [acc.reverse]
  | c :: rest, acc =>
    if c.isWhitespace then
      if acc.isEmpty then collectWords rest [] else acc.reverse :: collectWords rest []
    else
      collectWords rest (c :: acc)

/-- Model of `QString::simplified`: trim leading/trailing whitespace and
collapse every internal whitespace run to a single space. -/
def simplifiedChars (cs : List Char) : List Char :=
  List.intercalate [' '] (collectWords cs [])

/-- The `Exec` normalization of `addApp` (launchermodel.cpp:305-317):
remove field codes, strip a leading quote, delete all double quotes,
simplify whitespace, then split on single spaces. -/
def parseExec (exec : String) : List String :=
  (splitOnCharList ' '
      (simplifiedChars
        ((stripLeadingQuote (removeFieldCodes exec.data)).filter (fun c => c != '"')))).map
    String.mk

/-- Helper of `findById`: index of the first item with the given id,
counting from `n`, or `-1` (launchermodel.cpp:182-190). -/
def findByIdFrom (key : String) : List LauncherItem → Int → Int
  | [], _ => -1
  | it :: rest, n => if it.id = key then n else findByIdFrom key rest (n + 1)

/-- Model of `LauncherModel::findById`: index of the first item whose id
matches, or `-1` when there is none. -/
def findById (s : List LauncherItem) (key : String) : Int :=
  findByIdFrom key s 0

/-- The item constructed by `addApp` once all visibility checks pass
(launchermodel.cpp:299-317). -/
def mkItem (fileName : String) (d : DesktopEntry) : LauncherItem :=
  { id := fileName
    name := if d.localeName.isEmpty then d.name else d.localeName
    genericName := d.comment
    comment := d.comment
    iconName := d.icon
    args := parseExec d.exec }

/-- The `OnlyShowIn` rejection test of `addApp` (launchermodel.cpp:288-293):
when the key is present, split its value on `;` and reject unless the list
contains the detected desktop environment (a case-sensitive
`QStringList::contains`). -/
def onlyShowInRejects (env : String) (d : DesktopEntry) : Bool :=
  match d.onlyShowIn with
  | some v => !((splitString ';' v).contains (detectDesktopEnvironment env))
  | none => false

/-- Model of `LauncherModel::addApp` (launchermodel.cpp:278-324) acting on
the store.  `env` is the `XDG_CURRENT_DESKTOP` value and `entryOf` the
desktop-entry file contents by file name.  Rejected entries leave the
store unchanged; an accepted entry is appended. -/
def addApp (env : String) (entryOf : String → DesktopEntry)
    (s : List LauncherItem) (fileName : String) : List LauncherItem :=
  if findById s fileName ≠ -1 then s
  else if (entryOf fileName).terminal.getD false then s
  else if onlyShowInRejects env (entryOf fileName) then s
  else if (entryOf fileName).noDisplay || (entryOf fileName).hidden then s
  else s ++ [mkItem fileName (entryOf fileName)]

/-- Observable requests and signals issued by the model (the queued
`addApp` / `removeApp` invocations and emitted signals). -/
inductive Event where
  | addReq (fileName : String)
  | removeReq (item : LauncherItem)
  | refreshed
  | beginRemoveRows (first last : Nat)
  | endRemoveRows
  | applicationRemoved (item : LauncherItem)
deriving DecidableEq, Repr

/-- The ids of the store items, in store order. -/
def storeIds (s : List LauncherItem) : List String :=
  s.map LauncherItem.id

/-- Model of `LauncherModel::refresh` (launchermodel.cpp:192-221) as the
sequence of queued requests it issues: an add request for every on-disk
entry path not already present as an id, then a remove request for every
store item whose id is no longer on disk, then the `refreshed` signal. -/
def refreshEvents (s : List LauncherItem) (allEntries : List String) : List Event :=
  ((allEntries.filter (fun f => !((storeIds s).contains f))).map Event.addReq)
    ++ ((s.filter (fun it => !(allEntries.contains it.id))).map Event.removeReq)
    ++ [Event.refreshed]

/-- Helper of `removeApp`: index of the first occurrence of `item`,
counting from `n`, or `-1` (model of `QList::indexOf`). -/
def indexOfFrom (item : LauncherItem) : List LauncherItem → Int → Int
  | [], _ => -1
  | it :: rest, n => if it = item then n else indexOfFrom item rest (n + 1)

/-- Model of `LauncherModel::removeApp` (launchermodel.cpp:326-339):
locate the item; when absent do nothing, otherwise erase it and emit the
remove bracketing and the removal announcement. -/
def removeApp (s : List LauncherItem) (item : LauncherItem) :
    List LauncherItem × List Event :=
  if indexOfFrom item s 0 < 0 then (s, [])
  else
    (s.eraseIdx (indexOfFrom item s 0).toNat,
      [Event.beginRemoveRows (indexOfFrom item s 0).toNat (indexOfFrom item s 0).toNat,
        Event.endRemoveRows, Event.applicationRemoved item])

/-- Model of `QList::move` as used by `LauncherModel::move`: take the
element at `srcIdx` out and re-insert it at `dstIdx`. -/
def moveStore (s : List LauncherItem) (srcIdx dstIdx : Nat) : List LauncherItem :=
  match s.get? srcIdx with
  | none => s
  | some a => (s.eraseIdx srcIdx).insertIdx dstIdx a

/-- Model of `LauncherModel::move` (launchermodel.cpp:223-239) with its
page-relative index arithmetic. -/
def move (s : List LauncherItem) (iFrom iTo page pageCount : Nat) : List LauncherItem :=
  if iFrom = iTo then s
  else moveStore s (iFrom + page * pageCount) (iTo + page * pageCount)

/-- Model of the `refreshed` handler (launchermodel.cpp:64-70): sort the
store by item name using the comparator `a->name < b->name`.  `std::sort`
guarantees a permutation in which `b->name < a->name` fails for every
earlier `a` / later `b`; `mergeSort` with the negated flipped comparator
realises such a permutation. -/
def sortByName (s : List LauncherItem) : List LauncherItem :=
  s.mergeSort (fun a b => !nameLtB b.name.data a.name.data)

/-- The two display modes of the model (`NormalMode` / `SearchMode`). -/
inductive Mode where
  | normalMode
  | searchMode
deriving DecidableEq, Repr

/-- The state the model keeps for display purposes: the store, the search
overlay, and the mode. -/
structure ModelState where
  items : List LauncherItem
  searchItems : List LauncherItem
  mode : Mode
deriving DecidableEq, Repr

/-- The loop body of `LauncherModel::search` (launchermodel.cpp:140-149):
append every store item whose name or id contains the key
case-insensitively. -/
def searchLoop (key : String) : List LauncherItem → List LauncherItem
  | [] => []
  | it :: rest =>
    if ciContains it.name key || ciContains it.id key then
      it :: searchLoop key rest
    else
      searchLoop key rest

/-- Model of `LauncherModel::search` (launchermodel.cpp:135-152): set the
mode from the key, rebuild the overlay from the store. -/
def search (m : ModelState) (key : String) : ModelState :=
  { items := m.items
    searchItems := searchLoop key m.items
    mode := if key.isEmpty then Mode.normalMode else Mode.searchMode }

/-- The row source used by `rowCount` / `data` (launchermodel.cpp:84-92,
110-133): the overlay in search mode, the store otherwise. -/
def viewItems (m : ModelState) : List LauncherItem :=
  if m.mode = Mode.searchMode then m.searchItems else m.items

/-- The argument list handed to the process for one item
(launchermodel.cpp:260-268): the launch arguments after the program,
except that the program `cutefish-screenshot` gets the fixed arguments
`["-d", "200"]`. -/
def launchArgs (item : LauncherItem) : List String :=
  if item.args.headD "" = "cutefish-screenshot" then ["-d", "200"] else item.args.tail

/-- Model of `LauncherModel::launch` (launchermodel.cpp:249-276).
`startOk` stands for the external `QProcess::startDetached` outcome given
a program and argument list.  The result is the boolean return value
together with the program/arguments of the process started (or `none`). -/
def launch (startOk : String → List String → Bool) (s : List LauncherItem)
    (path : String) : Bool × Option (String × List String) :=
  if findById s path ≠ -1 then
    (s.get? (findById s path).toNat).elim (false, none)
      (fun item =>
        (startOk (item.args.headD "") (launchArgs item),
          some (item.args.headD "", launchArgs item)))
  else (false, none)

/-- The desktop entry of the spec's worked example: `Name="Files"`,
`Exec="org.cutefish.filemanager %U"`, everything else absent. -/
def filesEntry : DesktopEntry :=
  { name := "Files", exec := "org.cutefish.filemanager %U" }

/-- A concrete store item used to instantiate general theorems. -/
def sampleItem : LauncherItem :=
  { id := "a.desktop", name := "Alpha", genericName := "g", comment := "g",
    iconName := "i", args := ["alpha", "-v"] }

/-- A concrete stand-in for the external detached-start primitive. -/
def alwaysStarts : String → List String → Bool :=
  fun _ _ => true

/-! ### Helper lemmas -/

/-- `findByIdFrom` starting at a non-negative counter returns `-1` exactly
when no item has the id. -/
theorem findByIdFrom_eq_neg_one_iff (key : String) :
    ∀ (s : List LauncherItem) (n : Nat),
      findByIdFrom key s (n : Int) = -1 ↔ ∀ it ∈ s, it.id ≠ key := by
  intro s
  induction s with
  | nil => intro n; simp [findByIdFrom]
  | cons it rest ih =>
    intro n
    rw [List.forall_mem_cons]
    by_cases h : it.id = key
    · simp only [findByIdFrom, if_pos h]
      constructor
      · intro hc; exact absurd hc (by omega)
      · intro hc; exact absurd h hc.1
    · have hn : ((n : Int) + 1) = ((n + 1 : Nat) : Int) := by push_cast; ring
      simp only [findByIdFrom, if_neg h, hn, ih (n + 1)]
      simp [h]

/-- `findById` returns `-1` exactly when no item has the id. -/
theorem findById_eq_neg_one_iff (s : List LauncherItem) (key : String) :
    findById s key = -1 ↔ ∀ it ∈ s, it.id ≠ key := by
  have h := findByIdFrom_eq_neg_one_iff key s 0
  simpa [findById] using h

/-- `indexOfFrom` on a list not containing the item returns `-1`. -/
theorem indexOfFrom_eq_neg_one (item : LauncherItem) :
    ∀ (s : List LauncherItem) (n : Int), item ∉ s → indexOfFrom item s n = -1 := by
  intro s
  induction s with
  | nil => intro n _; rfl
  | cons it rest ih =>
    intro n h
    have h1 : it ≠ item := fun e => h (e ▸ List.mem_cons_self it rest)
    simp only [indexOfFrom, if_neg h1]
    exact ih (n + 1) (fun hm => h (List.mem_cons_of_mem _ hm))

/-- A list is a permutation of any of its elements pulled to the front. -/
theorem perm_cons_eraseIdx {α : Type} (a : α) :
    ∀ (s : List α) (i : Nat), s.get? i = some a → s.Perm (a :: s.eraseIdx i) := by
  intro s
  induction s with
  | nil => intro i h; simp at h
  | cons b t ih =>
    intro i h
    cases i with
    | zero =>
      simp only [List.get?] at h
      cases h
      simp [List.eraseIdx]
    | succ j =>
      simp only [List.get?_cons_succ] at h
      have hp := (ih j h).cons b
      rw [List.eraseIdx_cons_succ]
      exact hp.trans (List.Perm.swap a b (t.eraseIdx j))

/-- The `search` loop is a filter over the store. -/
theorem searchLoop_eq_filter (key : String) :
    ∀ s : List LauncherItem,
      searchLoop key s =
        s.filter (fun it => ciContains it.name key || ciContains it.id key) := by
  intro s
  induction s with
  | nil => rfl
  | cons it rest ih =>
    simp only [searchLoop, List.filter_cons]
    by_cases h : (ciContains it.name key || ciContains it.id key) = true
    · rw [if_pos h, if_pos h, ih]
    · rw [if_neg h, if_neg h, ih]

/-- The name comparator is irreflexive. -/
theorem nameLtB_irrefl : ∀ x : List Char, nameLtB x x = false
  | [] => rfl
  | a :: as => by simp [nameLtB, nameLtB_irrefl as]

/-- The name comparator is transitive. -/
theorem nameLtB_trans :
    ∀ x y z : List Char, nameLtB x y = true → nameLtB y z = true → nameLtB x z = true := by
  intro x
  induction x with
  | nil =>
    intro y z h1 h2
    cases z with
    | nil => cases y <;> simp [nameLtB] at h1 h2
    | cons c cs => simp [nameLtB]
  | cons a as ih =>
    intro y z h1 h2
    cases y with
    | nil => simp [nameLtB] at h1
    | cons b bs =>
      cases z with
      | nil => simp [nameLtB] at h2
      | cons c cs =>
        simp only [nameLtB] at h1 h2 ⊢
        by_cases hab : a = b
        · rw [if_pos hab] at h1
          by_cases hbc : b = c
          · rw [if_pos hbc] at h2
            rw [if_pos (hab.trans hbc)]
            exact ih bs cs h1 h2
          · rw [if_neg hbc] at h2
            have hac : a < c := hab ▸ of_decide_eq_true h2
            rw [if_neg (ne_of_lt hac)]
            exact decide_eq_true hac
        · rw [if_neg hab] at h1
          have h1' : a < b := of_decide_eq_true h1
          by_cases hbc : b = c
          · have hac : a < c := hbc ▸ h1'
            rw [if_neg (ne_of_lt hac)]
            exact decide_eq_true hac
          · rw [if_neg hbc] at h2
            have hac : a < c := lt_trans h1' (of_decide_eq_true h2)
            rw [if_neg (ne_of_lt hac)]
            exact decide_eq_true hac

/-- The name comparator fails exactly on equal lists or strictly larger
left argument (totality). -/
theorem nameLtB_eq_false_iff :
    ∀ x y : List Char, nameLtB x y = false ↔ (x = y ∨ nameLtB y x = true) := by
  intro x
  induction x with
  | nil =>
    intro y
    cases y with
    | nil => simp [nameLtB]
    | cons b bs => simp [nameLtB]
  | cons a as ih =>
    intro y
    cases y with
    | nil => simp [nameLtB]
    | cons b bs =>
      simp only [nameLtB]
      by_cases hab : a = b
      · subst hab
        rw [if_pos rfl, if_pos rfl, ih bs]
        constructor
        · rintro (h | h)
          · exact Or.inl (by rw [h])
          · exact Or.inr h
        · rintro (h | h)
          · injection h with h1 h2
            exact Or.inl h2
          · exact Or.inr h
      · rw [if_neg hab, if_neg (fun e => hab e.symm)]
        constructor
        · intro h
          have hnab : ¬ a < b := of_decide_eq_false h
          exact Or.inr
            (decide_eq_true (lt_of_le_of_ne (not_lt.mp hnab) (fun e => hab e.symm)))
        · rintro (h | h)
          · injection h with h1 h2
            exact absurd h1 hab
          · exact decide_eq_false (not_lt.mpr (le_of_lt (of_decide_eq_true h)))

/-- The executable comparator agrees with lexicographic order on the
character lists. -/
theorem nameLtB_iff_lex :
    ∀ x y : List Char, nameLtB x y = true ↔ List.Lex (fun a b : Char => a < b) x y := by
  intro x
  induction x with
  | nil =>
    intro y
    cases y with
    | nil =>
      constructor
      · intro h; exact absurd h (by simp [nameLtB])
      · intro h; nomatch h
    | cons b bs =>
      simp only [nameLtB]
      constructor
      · intro _; exact List.Lex.nil
      · intro _; trivial
  | cons a as ih =>
    intro y
    cases y with
    | nil =>
      constructor
      · intro h; exact absurd h (by simp [nameLtB])
      · intro h; nomatch h
    | cons b bs =>
      simp only [nameLtB]
      by_cases hab : a = b
      · subst hab
        rw [if_pos rfl]
        constructor
        · intro h; exact List.Lex.cons ((ih bs).mp h)
        · intro h
          cases h with
          | cons h' => exact (ih bs).mpr h'
          | rel h' => exact absurd h' (lt_irrefl a)
      · rw [if_neg hab]
        constructor
        · intro h; exact List.Lex.rel (of_decide_eq_true h)
        · intro h
          cases h with
          | cons h' => exact absurd rfl hab
          | rel h' => exact decide_eq_true h'

/-- The comparator handed to `mergeSort` by `sortByName` is transitive. -/
theorem sortLe_trans (a b c : LauncherItem)
    (h1 : (!nameLtB b.name.data a.name.data) = true)
    (h2 : (!nameLtB c.name.data b.name.data) = true) :
    (!nameLtB c.name.data a.name.data) = true := by
  rw [Bool.not_eq_true'] at h1 h2 ⊢
  rw [nameLtB_eq_false_iff] at h1 h2 ⊢
  rcases h1 with h1 | h1 <;> rcases h2 with h2 | h2
  · exact Or.inl (h2.trans h1)
  · exact Or.inr (h1 ▸ h2)
  · exact Or.inr (h2 ▸ h1)
  · exact Or.inr (nameLtB_trans _ _ _ h1 h2)

/-- The comparator handed to `mergeSort` by `sortByName` is total. -/
theorem sortLe_total (a b : LauncherItem) :
    ((!nameLtB b.name.data a.name.data) || (!nameLtB a.name.data b.name.data)) = true := by
  cases hab : nameLtB a.name.data b.name.data with
  | false => simp [hab]
  | true =>
    cases hba : nameLtB b.name.data a.name.data with
    | false => simp [hba]
    | true =>
      have h := nameLtB_trans _ _ _ hab hba
      rw [nameLtB_irrefl] at h
      exact absurd h (by simp)

/-- C6: after the `refreshed` handler runs the store is sorted in
ascending name order: every adjacent pair has the earlier name equal to or
lexicographically below the later one, and the sorted store is a
permutation (same multiset) of the store before the sort. -/
theorem refreshed_sorts (s : List LauncherItem) :
    List.Chain'
      (fun a b => a.name = b.name ∨ List.Lex (fun c d : Char => c < d) a.name.data b.name.data)
      (sortByName s) ∧ (sortByName s).Perm s := by
  constructor
  · have hp := List.sorted_mergeSort sortLe_trans sortLe_total s
    refine (hp.chain').imp ?_
    intro a b h
    rw [Bool.not_eq_true', nameLtB_eq_false_iff] at h
    rcases h with h | h
    · exact Or.inl (String.ext h).symm
    · exact Or.inr ((nameLtB_iff_lex _ _).mp h)
  · exact List.mergeSort_perm s _

/-- `List.contains` through a lawful `BEq` is membership. -/
theorem contains_iff_mem {α : Type} [BEq α] [LawfulBEq α] (l : List α) (a : α) :
    l.contains a = true ↔ a ∈ l :=
  List.elem_iff

/-- C1: id uniqueness is an invariant of the store: `addApp` on a file
name that is already an id leaves the store unchanged, and each store
operation (`addApp`, `removeApp`, `move`, the post-refresh sort) maps a
store with pairwise-distinct ids to a store with pairwise-distinct ids. -/
theorem store_id_uniqueness (env : String) (entryOf : String → DesktopEntry)
    (s : List LauncherItem) (fileName : String) (item : LauncherItem)
    (iFrom iTo page pageCount : Nat) (h : (storeIds s).Nodup) :
    (fileName ∈ storeIds s → addApp env entryOf s fileName = s) ∧
    (storeIds (addApp env entryOf s fileName)).Nodup ∧
    (storeIds (removeApp s item).1).Nodup ∧
    (storeIds (move s iFrom iTo page pageCount)).Nodup ∧
    (storeIds (sortByName s)).Nodup := by
  have hfind : fileName ∈ storeIds s → findById s fileName ≠ -1 := by
    intro hm hcon
    rw [findById_eq_neg_one_iff] at hcon
    rcases List.mem_map.mp hm with ⟨it, hit, hid⟩
    exact hcon it hit hid
  refine ⟨?_, ?_, ?_, ?_, ?_⟩
  · intro hm
    unfold addApp
    rw [if_pos (hfind hm)]
  · unfold addApp
    split
    · exact h
    · rename_i hne
      have hids : ∀ it ∈ s, it.id ≠ fileName :=
        (findById_eq_neg_one_iff s fileName).mp (not_ne_iff.mp hne)
      split
      · exact h
      · split
        · exact h
        · split
          · exact h
          · simp only [storeIds, List.map_append, List.nodup_append]
            refine ⟨h, List.nodup_singleton _, ?_⟩
            intro x hx hx2
            rcases List.mem_map.mp hx with ⟨it, hit, hid⟩
            rcases List.mem_singleton.mp hx2 with rfl
            exact hids it hit hid
  · unfold removeApp
    split
    · exact h
    · exact List.Nodup.sublist ((List.eraseIdx_sublist s _).map LauncherItem.id) h
  · unfold move
    split
    · exact h
    · unfold moveStore
      cases hg : s.get? (iFrom + page * pageCount) with
      | none => exact h
      | some a =>
        change (storeIds
          ((s.eraseIdx (iFrom + page * pageCount)).insertIdx
            (iTo + page * pageCount) a)).Nodup
        by_cases hle :
            iTo + page * pageCount ≤ (s.eraseIdx (iFrom + page * pageCount)).length
        · have hperm :
              ((s.eraseIdx (iFrom + page * pageCount)).insertIdx
                (iTo + page * pageCount) a).Perm s :=
            (List.perm_insertIdx a _ hle).trans
              (perm_cons_eraseIdx a s (iFrom + page * pageCount) hg).symm
          exact ((hperm.map LauncherItem.id).nodup_iff).mpr h
        · rw [List.insertIdx_of_length_lt
            (s.eraseIdx (iFrom + page * pageCount)) a (iTo + page * pageCount) (by omega)]
          exact List.Nodup.sublist ((List.eraseIdx_sublist s _).map LauncherItem.id) h
  · unfold sortByName
    exact (((List.mergeSort_perm s _).map LauncherItem.id).nodup_iff).mpr h

/-- C2: an entry whose `Terminal` key is present and true, or whose
`NoDisplay` value is true, or whose `Hidden` value is true, is never
added: `addApp` leaves the store unchanged. -/
theorem addApp_rejects_hidden (env : String) (entryOf : String → DesktopEntry)
    (s : List LauncherItem) (fileName : String)
    (h : (entryOf fileName).terminal = some true ∨ (entryOf fileName).noDisplay = true ∨
      (entryOf fileName).hidden = true) :
    addApp env entryOf s fileName = s := by
  unfold addApp
  split
  · rfl
  · split
    · rfl
    · split
      · rfl
      · split
        · rfl
        · rename_i h1 h2 h3 h4
          exfalso
          rcases h with hh | hh | hh
          · exact h2 (by rw [hh]; rfl)
          · exact h4 (by rw [hh]; simp)
          · exact h4 (by rw [hh]; simp)

/-- C3: an entry declaring `OnlyShowIn` is added only if some element of
the split list matches the detected environment identifier
case-insensitively; when no element matches even case-insensitively, the
store is unchanged. -/
theorem addApp_onlyShowIn_mismatch (env : String) (entryOf : String → DesktopEntry)
    (s : List LauncherItem) (fileName : String) (v : String)
    (hv : (entryOf fileName).onlyShowIn = some v)
    (hno : ∀ x ∈ splitString ';' v,
      upperChars x ≠ upperChars (detectDesktopEnvironment env)) :
    addApp env entryOf s fileName = s := by
  have hrej : onlyShowInRejects env (entryOf fileName) = true := by
    unfold onlyShowInRejects
    rw [hv]
    rw [Bool.not_eq_true']
    rw [← Bool.not_eq_true]
    intro hc
    exact hno _ ((contains_iff_mem _ _).mp hc) rfl
  unfold addApp
  by_cases h1 : findById s fileName ≠ -1
  · rw [if_pos h1]
  · rw [if_neg h1]
    by_cases h2 : (entryOf fileName).terminal.getD false = true
    · rw [if_pos h2]
    · rw [if_neg h2, if_pos hrej]

/-- C7: the spec's worked example: an entry with `Name="Files"`,
`Exec="org.cutefish.filemanager %U"`, no locale name and no restricting
keys is appended as an item named `"Files"` whose launch arguments are
`["org.cutefish.filemanager"]`. -/
theorem addApp_files_example (env : String) (s : List LauncherItem) (fileName : String)
    (h : ∀ it ∈ s, it.id ≠ fileName) :
    addApp env (fun _ => filesEntry) s fileName =
      s ++ [{ id := fileName, name := "Files", genericName := "", comment := "",
              iconName := "", args := ["org.cutefish.filemanager"] }] := by
  have hfind : findById s fileName = -1 := (findById_eq_neg_one_iff s fileName).mpr h
  unfold addApp
  rw [if_neg (by simp [hfind]), if_neg (by simp [filesEntry]),
    if_neg (by simp [onlyShowInRejects, filesEntry]), if_neg (by simp [filesEntry])]
  rfl

/-- C10: every item `addApp` places in the store has its generic name
equal to its comment, both being the entry's `Comment` value; the
property is preserved from any store already satisfying it. -/
theorem genericName_eq_comment (env : String) (entryOf : String → DesktopEntry)
    (s : List LauncherItem) (fileName : String)
    (h : ∀ it ∈ s, it.genericName = it.comment) :
    ∀ it ∈ addApp env entryOf s fileName, it.genericName = it.comment := by
  unfold addApp
  split
  · exact h
  · split
    · exact h
    · split
      · exact h
      · split
        · exact h
        · intro it hit
          rcases List.mem_append.mp hit with hit | hit
          · exact h it hit
          · rcases List.mem_singleton.mp hit with rfl
            rfl

/-- C4: searching with an empty key puts the model in normal mode and the
view shows the whole store in its order; a non-empty key puts the model in
search mode and the view shows exactly the store items whose name or id
contains the key case-insensitively, in store order. -/
theorem search_spec (m : ModelState) (key : String) :
    (key = "" → (search m key).mode = Mode.normalMode ∧
      viewItems (search m key) = m.items) ∧
    (key ≠ "" → (search m key).mode = Mode.searchMode ∧
      viewItems (search m key) =
        m.items.filter (fun it => ciContains it.name key || ciContains it.id key)) := by
  constructor
  · intro hk
    have hmode : (search m key).mode = Mode.normalMode := by
      simp [search, String.isEmpty_iff, hk]
    refine ⟨hmode, ?_⟩
    unfold viewItems
    rw [if_neg (by simp [hmode])]
    rfl
  · intro hk
    have hmode : (search m key).mode = Mode.searchMode := by
      simp [search, String.isEmpty_iff, hk]
    refine ⟨hmode, ?_⟩
    unfold viewItems
    rw [if_pos hmode]
    exact searchLoop_eq_filter key m.items

/-- C5: a refresh requests an add for exactly the on-disk paths not
already present as ids, requests a remove for exactly the store items
whose id is no longer on disk, signals completion last, and neither adds
nor removes an item present both in the store and on disk. -/
theorem refresh_spec (s : List LauncherItem) (allEntries : List String) :
    (∀ p, Event.addReq p ∈ refreshEvents s allEntries ↔
      (p ∈ allEntries ∧ p ∉ storeIds s)) ∧
    (∀ item, Event.removeReq item ∈ refreshEvents s allEntries ↔
      (item ∈ s ∧ item.id ∉ allEntries)) ∧
    (refreshEvents s allEntries).getLast? = some Event.refreshed ∧
    (∀ item ∈ s, item.id ∈ allEntries →
      Event.addReq item.id ∉ refreshEvents s allEntries ∧
      Event.removeReq item ∉ refreshEvents s allEntries) := by
  have hadd : ∀ p, Event.addReq p ∈ refreshEvents s allEntries ↔
      (p ∈ allEntries ∧ p ∉ storeIds s) := by
    intro p
    simp [refreshEvents, List.mem_filter, contains_iff_mem]
  have hrem : ∀ item, Event.removeReq item ∈ refreshEvents s allEntries ↔
      (item ∈ s ∧ item.id ∉ allEntries) := by
    intro item
    simp [refreshEvents, List.mem_filter, contains_iff_mem]
  refine ⟨hadd, hrem, ?_, ?_⟩
  · unfold refreshEvents
    exact List.getLast?_concat _
  · intro item hitem hdisk
    constructor
    · intro hc
      exact ((hadd item.id).mp hc).2 (List.mem_map.mpr ⟨item, hitem, rfl⟩)
    · intro hc
      exact ((hrem item).mp hc).2 hdisk

/-- C8: removing an item that is not in the store is a no-op: the store
is unchanged and no events (no remove bracketing, no removal
announcement) are emitted. -/
theorem removeApp_absent_noop (s : List LauncherItem) (item : LauncherItem)
    (h : item ∉ s) : removeApp s item = (s, []) := by
  unfold removeApp
  rw [indexOfFrom_eq_neg_one item s 0 h]
  rw [if_pos (show (-1 : Int) < 0 by decide)]

/-- C9: `launch` returns `false` and starts no process when no store item
has the requested id; when the lookup finds an item, the process program
is the item's first launch argument and the process arguments are the
remaining launch arguments, except that the program
`"cutefish-screenshot"` gets the fixed arguments `["-d", "200"]`, and the
boolean result is exactly the detached-start outcome. -/
theorem launch_spec (startOk : String → List String → Bool) (s : List LauncherItem)
    (path : String) :
    ((∀ it ∈ s, it.id ≠ path) → launch startOk s path = (false, none)) ∧
    (∀ (i : Nat) (item : LauncherItem) (a : String) (rest : List String),
      findById s path = (i : Int) → s.get? i = some item → item.args = a :: rest →
      launch startOk s path =
        (startOk a (if a = "cutefish-screenshot" then ["-d", "200"] else rest),
          some (a, if a = "cutefish-screenshot" then ["-d", "200"] else rest))) := by
  constructor
  · intro h
    have hfind : findById s path = -1 := (findById_eq_neg_one_iff s path).mpr h
    unfold launch
    rw [if_neg (by simp [hfind])]
  · intro i item a rest hfind hget hargs
    unfold launch
    rw [hfind, if_pos (show ((i : Int) ≠ -1) by omega), Int.toNat_natCast, hget]
    simp [Option.elim, launchArgs, hargs]

/-- Concrete instance of the id-uniqueness invariant: adding an already
present id leaves a one-item store unchanged, and removal keeps ids
distinct. -/
theorem store_id_uniqueness_witness :
    addApp "X" (fun _ => filesEntry) [sampleItem] "a.desktop" = [sampleItem] ∧
    (storeIds (removeApp [sampleItem] sampleItem).1).Nodup :=
  ⟨(store_id_uniqueness "X" (fun _ => filesEntry) [sampleItem] "a.desktop" sampleItem
      0 1 0 0 (by decide)).1 (by decide),
    (store_id_uniqueness "X" (fun _ => filesEntry) [sampleItem] "a.desktop" sampleItem
      0 1 0 0 (by decide)).2.2.1⟩

/-- Concrete instance of the Terminal rejection: a terminal-only entry is
not added to an empty store. -/
theorem addApp_rejects_hidden_witness :
    addApp "X" (fun _ => { terminal := some true, name := "T" }) [] "t.desktop" = [] :=
  addApp_rejects_hidden "X" (fun _ => { terminal := some true, name := "T" }) [] "t.desktop"
    (Or.inl rfl)

/-- Concrete instance of the OnlyShowIn rejection: an entry restricted to
KDE/GNOME is not added under the CUTEFISH environment. -/
theorem addApp_onlyShowIn_mismatch_witness :
    addApp "Cutefish" (fun _ => { onlyShowIn := some "KDE;GNOME", name := "K" })
      [] "k.desktop" = [] :=
  addApp_onlyShowIn_mismatch "Cutefish"
    (fun _ => { onlyShowIn := some "KDE;GNOME", name := "K" }) [] "k.desktop" "KDE;GNOME"
    rfl (by decide)

/-- Concrete instance of the search behaviour on a non-empty key. -/
theorem search_spec_witness :
    (search ⟨[sampleItem], [], Mode.normalMode⟩ "alp").mode = Mode.searchMode ∧
    viewItems (search ⟨[sampleItem], [], Mode.normalMode⟩ "alp") =
      [sampleItem].filter (fun it => ciContains it.name "alp" || ciContains it.id "alp") :=
  (search_spec ⟨[sampleItem], [], Mode.normalMode⟩ "alp").2 (by decide)

/-- Concrete instance of the refresh diff: a new on-disk path is
requested as an add. -/
theorem refresh_spec_witness :
    Event.addReq "b.desktop" ∈ refreshEvents [sampleItem] ["a.desktop", "b.desktop"] :=
  ((refresh_spec [sampleItem] ["a.desktop", "b.desktop"]).1 "b.desktop").mpr (by decide)

/-- Concrete instance of the worked example on an empty store. -/
theorem addApp_files_example_witness :
    addApp "X" (fun _ => filesEntry) [] "f.desktop" =
      [{ id := "f.desktop", name := "Files", genericName := "", comment := "",
         iconName := "", args := ["org.cutefish.filemanager"] }] :=
  addApp_files_example "X" [] "f.desktop" (by decide)

/-- Concrete instance of the no-op removal of an absent item. -/
theorem removeApp_absent_noop_witness :
    removeApp [mkItem "f.desktop" filesEntry] sampleItem =
      ([mkItem "f.desktop" filesEntry], []) :=
  removeApp_absent_noop [mkItem "f.desktop" filesEntry] sampleItem (by decide)

/-- Concrete instance of a successful launch lookup. -/
theorem launch_spec_witness :
    launch alwaysStarts [sampleItem] "a.desktop" =
      (alwaysStarts "alpha" (if "alpha" = "cutefish-screenshot" then ["-d", "200"] else ["-v"]),
        some ("alpha", if "alpha" = "cutefish-screenshot" then ["-d", "200"] else ["-v"])) :=
  (launch_spec alwaysStarts [sampleItem] "a.desktop").2 0 sampleItem "alpha" ["-v"]
    (by decide) (by decide) (by decide)

/-- Concrete instance of the genericName/comment coincidence for an item
built by `addApp`. -/
theorem genericName_eq_comment_witness :
    (mkItem "f.desktop" filesEntry).genericName = (mkItem "f.desktop" filesEntry).comment :=
  genericName_eq_comment "X" (fun _ => filesEntry) [] "f.desktop" (by decide)
    (mkItem "f.desktop" filesEntry) (by decide)

end LiquidLauncher
